import Mathlib

/-!
Verification of the jira-daily-report tool (Go sources `main.go` and
`slash-server.go`) against its natural-language specification.

The Go code is shallowly embedded: JIRA records become the `Issue`
structure, the polymorphic `customfield_12310220` value becomes the
`JsonVal` inductive, Go maps keyed by strings become association lists
that record insertion order (Go's map *range* order is unspecified, so
wherever the source ranges over a map the embedding takes the
enumeration order as an explicit parameter), and the HTTP pagination
loop of `fetchJiraIssues` becomes a fuelled recursion over an abstract
server oracle.  Go strings are modelled as Lean strings (sequences of
characters); all string constants involved in the claims are ASCII, for
which Go's byte-level operations and the character-level model agree.
-/

/-- A decoded JSON value, the shape of Go's `interface{}` after
`encoding/json` unmarshalling (`nil`, `string`, `[]interface{}`,
`float64`, `bool`, or `map[string]interface{}`).  The numeric payload is
irrelevant to the program, which only inspects strings and arrays. -/
inductive JsonVal where
  | null
  | str (s : String)
  | arr (elems : List JsonVal)
  | num (n : Int)
  | boolean (b : Bool)
  | obj

/-- One issue of `JiraSearchResponse.Issues` (`main.go` lines 46-71):
key, summary, status name, optional assignee display name, optional QA
contact display name (`customfield_12315948`), issue type name,
component names, labels, and the raw Git Pull Request field
(`customfield_12310220`). -/
structure Issue where
  key : String
  summary : String
  status : String
  assignee : Option String
  qaContact : Option String
  issueType : String
  components : List String
  labels : List String
  gitPullRequest : JsonVal

/-- `JiraSearchResponse` (`main.go` lines 42-72). -/
structure JiraSearchResponse where
  respTotal : Nat
  respStartAt : Nat
  respMaxResults : Nat
  issues : List Issue

/-- `IssueItem` (`main.go` lines 75-80). -/
structure IssueItem where
  key : String
  summary : String
  status : String
  gitPullRequest : List String
deriving DecidableEq

/-- `excludedComponents` (`main.go` lines 28-30). -/
def excludedComponents : List String := ["User Interface"]

/-- `excludedLabels` (`main.go` lines 33-37). -/
def excludedLabels : List String :=
  ["user-interface", "mtv-storage-offload", "mtv-copy-offload"]

/-- The body of the accumulation loop of `extractPRs` over a
`[]interface{}` value (`main.go` lines 239-243): append `item` when it
is a non-empty string. -/
def prStep (prs : List String) (item : JsonVal) : List String :=
  match item with
  | .str s => if s ≠ "" then prs ++ [s] else prs
  | _ => prs

/-- `extractPRs` (`main.go` lines 227-247).  The Go `nil` check maps to
the `null` case; the `switch` on the dynamic type maps to the match; the
accumulation loop over `[]interface{}` maps to `foldl prStep`, exactly
as the Go `append` builds `prs`. -/
def extractPRs (prField : JsonVal) : List String :=
  match prField with
  | .null => []
  | .str v => if v ≠ "" then [v] else []
  | .arr v => v.foldl prStep []
  | _ => []

/-- `shouldFilterOut` (`main.go` lines 251-273): the two nested loops
return true as soon as a component name or label equals an excluded
entry. -/
def shouldFilterOut (components : List String) (labels : List String) : Bool :=
  components.any (fun comp => excludedComponents.any (fun excluded => comp == excluded)) ||
  labels.any (fun label => excludedLabels.any (fun excluded => label == excluded))

/-- The responsible-person computation inlined in
`buildPersonStatusGroups` (`main.go` lines 388-393): start from
"Unassigned", use the QA contact when the status is ON_QA or MODIFIED
and a QA contact exists, otherwise the assignee when one exists. -/
def groupKey (i : Issue) : String :=
  if (i.status == "ON_QA" || i.status == "MODIFIED") && i.qaContact.isSome then
    i.qaContact.getD "Unassigned"
  else
    i.assignee.getD "Unassigned"

/-- Construction of an `IssueItem` from an issue
(`main.go` lines 395-400). -/
def toIssueItem (i : Issue) : IssueItem :=
  { key := i.key
    summary := i.summary
    status := i.status
    gitPullRequest := extractPRs i.gitPullRequest }

/-- The spec's reading of the normalizer on list input: keep exactly the
non-empty string elements, in order. -/
def specLinkOfElem (v : JsonVal) : Option String :=
  match v with
  | .str s => if s = "" then none else some s
  | _ => none

/-- The spec's reading of the responsible-person rule, written from the
spec's words: reviewer's display name when status is one of the two
review statuses and a reviewer is present; otherwise the assignee's
display name when present; otherwise the sentinel. -/
def specGroupKey (i : Issue) : String :=
  match i.qaContact with
  | some reviewer =>
      if i.status = "ON_QA" ∨ i.status = "MODIFIED" then reviewer
      else match i.assignee with
           | some a => a
           | none => "Unassigned"
  | none =>
      match i.assignee with
      | some a => a
      | none => "Unassigned"

/-- Insertion into the Go map `personIssues` modelled as an association
list in key-insertion order: `personIssues[assignee] = append(...)`
(`main.go` line 395) appends to an existing key's slice or adds a new
key. -/
def upsert (m : List (String × List IssueItem)) (k : String) (v : IssueItem) :
    List (String × List IssueItem) :=
  match m with
  | [] => [(k, [v])]
  | (k', vs) :: rest =>
      if k' = k then (k', vs ++ [v]) :: rest else (k', vs) :: upsert rest k v

/-- Reading a key from the association-list map model; a missing key
yields the empty slice, as Go's zero value for `[]IssueItem` behaves
under `append` and `len`. -/
def lookupL (m : List (String × List IssueItem)) (k : String) : List IssueItem :=
  match m with
  | [] => []
  | (k', vs) :: rest => if k' = k then vs else lookupL rest k

/-- The body of the per-issue loop of `buildPersonStatusGroups`
(`main.go` lines 377-401): skip issues that `shouldFilterOut` rejects,
skip Epics with no extracted PRs, and append the rest to the
responsible person's slice. -/
def personStep (m : List (String × List IssueItem)) (issue : Issue) :
    List (String × List IssueItem) :=
  if shouldFilterOut issue.components issue.labels then m
  else
    let prs := extractPRs issue.gitPullRequest
    if issue.issueType == "Epic" && prs.length == 0 then m
    else upsert m (groupKey issue) (toIssueItem issue)

/-- The `personIssues` map built by the first stage of
`buildPersonStatusGroups` (`main.go` lines 374-402): nested loops over
responses and their issues. -/
def personIssues (responses : List JiraSearchResponse) :
    List (String × List IssueItem) :=
  responses.foldl (fun m resp => resp.issues.foldl personStep m) []

/-- The spec's inclusion condition, written from the spec's words: no
component in the excluded-component set, no label in the excluded-label
set (exact, case-sensitive matches), and either the issue type is not
"Epic" or at least one pull-request link was extracted. -/
def specKeep (i : Issue) : Bool :=
  decide ((∀ c ∈ i.components, c ∉ excludedComponents) ∧
          (∀ l ∈ i.labels, l ∉ excludedLabels) ∧
          (i.issueType ≠ "Epic" ∨ extractPRs i.gitPullRequest ≠ []))

/-- Character-level model of Go's `strings.ToLower`
(`slash-server.go` line 601). -/
def toLowerStr (s : String) : String := ⟨s.data.map Char.toLower⟩

/-- Scanning model of Go's `strings.Contains`: `pat` occurs in `s` when
it is a prefix of some suffix of `s`; the empty pattern is contained in
every string, exactly as in Go. -/
def containsChars (s pat : List Char) : Bool :=
  match s with
  | [] => pat.isEmpty
  | c :: rest => pat.isPrefixOf (c :: rest) || containsChars rest pat

/-- Go's `strings.Contains` on the string model. -/
def containsStr (s pat : String) : Bool := containsChars s.data pat.data

/-- The body of the per-issue loop of `filterIssuesByUser`
(`slash-server.go` lines 604-643): apply the daily-report filters only
when `skipFilters` is false, then keep the issue when the lowercased
assignee or QA contact name contains the lowercased username. -/
def filterUserStep (usernameLower : String) (skipFilters : Bool)
    (acc : List IssueItem) (issue : Issue) : List IssueItem :=
  let prs := extractPRs issue.gitPullRequest
  if !skipFilters && shouldFilterOut issue.components issue.labels then acc
  else if !skipFilters && (issue.issueType == "Epic" && prs.length == 0) then acc
  else
    let assigneeName := issue.assignee.getD ""
    let qaContactName := issue.qaContact.getD ""
    if containsStr (toLowerStr assigneeName) usernameLower ||
       containsStr (toLowerStr qaContactName) usernameLower then
      acc ++ [{ key := issue.key, summary := issue.summary,
                status := issue.status, gitPullRequest := prs }]
    else acc

/-- `filterIssuesByUser` (`slash-server.go` lines 597-647). -/
def filterIssuesByUser (responses : List JiraSearchResponse)
    (username : String) (skipFilters : Bool) : List IssueItem :=
  let usernameLower := toLowerStr username
  responses.foldl
    (fun acc resp => resp.issues.foldl (filterUserStep usernameLower skipFilters) acc)
    []

/-- Go's `strings.ReplaceAll` for a single-character pattern: each
occurrence of `c` is expanded to `rep`, all other characters are kept. -/
def replaceChar (c : Char) (rep : List Char) (s : List Char) : List Char :=
  s.flatMap (fun x => if x = c then rep else [x])

/-- `escapeSlackText` (`main.go` lines 586-591): replace `&` first, then
`<`, then `>`, exactly in the source's order. -/
def escapeSlackText (text : String) : String :=
  let t1 := replaceChar '&' ("&amp;".data) text.data
  let t2 := replaceChar '<' ("&lt;".data) t1
  let t3 := replaceChar '>' ("&gt;".data) t2
  ⟨t3⟩

/-- The summary transformation of the per-item blocks of
`sendDailyReportThreaded` (`main.go` lines 488-491): escape, then cut at
65 characters and append an ellipsis. -/
def summaryThreaded (s : String) : String :=
  let summary := escapeSlackText s
  if summary.length > 65 then summary.take 65 ++ "..." else summary

/-- The summary transformation of `buildEphemeralStatusBlocks`
(`slash-server.go` lines 372-375): escape, then cut at 100 characters. -/
def summaryEphemeral (s : String) : String :=
  let summary := escapeSlackText s
  if summary.length > 100 then summary.take 100 ++ "..." else summary

/-- The summary transformation of `buildStatusGroupBlocks`
(`slash-server.go` lines 574-577): escape, then cut at 150 characters. -/
def summaryStatusGroup (s : String) : String :=
  let summary := escapeSlackText s
  if summary.length > 150 then summary.take 150 ++ "..." else summary

/-- Go's `unicode.IsSpace` restricted to the Latin-1 range: ASCII
whitespace plus NEL and NBSP.  Only the plain space character matters
for the claims settled here. -/
def isGoSpace (c : Char) : Bool :=
  c = ' ' || c = '\t' || c = '\n' || c = '\x0B' || c = '\x0C' || c = '\r' ||
  c = '\u0085' || c = ' '

/-- Go's `strings.TrimSpace` on the character model: drop whitespace
from the front, then from the back. -/
def trimSpaceChars (l : List Char) : List Char :=
  ((l.dropWhile isGoSpace).reverse.dropWhile isGoSpace).reverse

/-- Go's `strings.TrimSpace`. -/
def trimSpace (s : String) : String := ⟨trimSpaceChars s.data⟩

/-- The characters of the `--all` flag token. -/
def flagChars : List Char := "--all".data

/-- Go's `strings.ReplaceAll(text, "--all", "")` specialised to the flag
token: scan left to right, removing each (non-overlapping, leftmost)
occurrence of `--all` (`slash-server.go` line 161). -/
def stripFlag : List Char → List Char
  | '-' :: '-' :: 'a' :: 'l' :: 'l' :: rest => stripFlag rest
  | c :: rest => c :: stripFlag rest
  | [] => []

/-- The command-text parsing of `processSlashCommand`
(`slash-server.go` lines 156-161): trim the text, report `includeAll`
when it contains `--all`, and take as username the text with all
occurrences of `--all` removed and surrounding whitespace trimmed. -/
def parseSlashText (text : String) : Bool × String :=
  let t := trimSpace text
  (containsStr t "--all", trimSpace ⟨stripFlag t.data⟩)

/-- The error classes of one round of `fetchJiraIssues`: the request
failing to execute (`main.go` lines 318-321), a non-200 status
(`main.go` lines 329-331), or an undecodable body
(`main.go` lines 333-336).  Marshalling the request body cannot fail for
the fixed request shape, so it is not modelled. -/
inductive FetchErr where
  | transport
  | badStatus (code : Nat)
  | decodeFail
deriving DecidableEq

/-- One HTTP exchange's result: a status code, and the decoded search
response when the body parses. -/
structure HttpResp where
  statusCode : Nat
  body : Option JiraSearchResponse

/-- `maxResults := 100` (`main.go` line 285). -/
def maxResultsPerPage : Nat := 100

/-- The pagination loop of `fetchJiraIssues` (`main.go` lines 287-348)
over an abstract server oracle mapping a `startAt` offset to a transport
failure (`none`) or a response.  The Go `for` loop has no bound of its
own, so the embedding is fuelled: `none` means the fuel ran out before
the loop returned.  Every error path returns the `nil` slice together
with the error, exactly as the Go `return nil, fmt.Errorf(...)`
statements do. -/
def fetchLoop (server : Nat → Option HttpResp) :
    Nat → Nat → List JiraSearchResponse →
    Option (List JiraSearchResponse × Option FetchErr)
  | 0, _, _ => none
  | fuel + 1, startAt, acc =>
      match server startAt with
      | none => some ([], some .transport)
      | some resp =>
          if resp.statusCode ≠ 200 then
            some ([], some (.badStatus resp.statusCode))
          else
            match resp.body with
            | none => some ([], some .decodeFail)
            | some result =>
                if startAt + result.issues.length ≥ result.respTotal then
                  some (acc ++ [result], none)
                else
                  fetchLoop server fuel (startAt + maxResultsPerPage)
                    (acc ++ [result])

/-- `fetchJiraIssues` (`main.go` lines 282-351): run the pagination loop
from offset 0 with an empty accumulator. -/
def fetchJiraIssues (server : Nat → Option HttpResp) (fuel : Nat) :
    Option (List JiraSearchResponse × Option FetchErr) :=
  fetchLoop server fuel 0 []

/-- A concrete server for exercising `fetchJiraIssues` failure: the
first page succeeds with a reported total of 300, the second request
fails at the transport level. -/
def serverFailsSecondPage : Nat → Option HttpResp := fun n =>
  if n = 0 then
    some { statusCode := 200,
           body := some { respTotal := 300, respStartAt := 0,
                          respMaxResults := 100, issues := [] } }
  else none

/-- A concrete server whose every response reports a total of 0. -/
def serverEmptyTotal : Nat → Option HttpResp := fun _ =>
  some { statusCode := 200,
         body := some { respTotal := 0, respStartAt := 0,
                        respMaxResults := 100, issues := [] } }

/-- `statusOrder` of `sendDailyReportThreaded` (`main.go` line 433). -/
def statusOrder : List String :=
  ["In Progress", "Modified", "POST", "ON_QA", "MODIFIED", "Open", "Closed",
   "Archived"]

/-- The per-person `statusGroups` map
(`main.go` lines 415-419, and `groupIssuesByStatus` in
`slash-server.go` lines 238-244): group items by their literal status
string, in first-encounter key order. -/
def buildStatusGroups (issues : List IssueItem) :
    List (String × List IssueItem) :=
  issues.foldl (fun m it => upsert m it.status it) []

/-- Map lookup returning `none` for a missing key, modelling Go's
`issues, exists := group.StatusGroups[status]`. -/
def lookupS (m : List (String × List IssueItem)) (k : String) :
    Option (List IssueItem) :=
  match m with
  | [] => none
  | (k', vs) :: rest => if k' = k then some vs else lookupS rest k

/-- The order in which `sendDailyReportThreaded` emits a person's status
sections (`main.go` lines 462-555): a first loop walks the fixed
`statusOrder` and emits each status present in the map; a second loop
ranges over the map — in Go's unspecified enumeration order, taken here
as the parameter `perm` — and emits each status not in `statusOrder`. -/
def emittedStatuses (sg : List (String × List IssueItem))
    (perm : List String) : List String :=
  statusOrder.foldl (fun acc status =>
    match lookupS sg status with
    | some _ => acc ++ [status]
    | none => acc) [] ++
  perm.foldl (fun acc status =>
    if statusOrder.contains status then acc else acc ++ [status]) []

/-- Go's `sort.Strings` (`main.go` line 409): sort ascending (UTF-8
byte order and code-point order agree). -/
def sortStrings (people : List String) : List String :=
  List.insertionSort (fun a b => a ≤ b) people

/-- A Slack Block Kit block as this program builds them: a plain-text
header, a divider, or an mrkdwn section. -/
inductive SBlock where
  | header (text : String)
  | divider
  | section (text : String)
deriving DecidableEq

/-- The separator line of `sendDailyReportThreaded` (`main.go` line 436). -/
def separator : String := "━━━━━━━━━━━━━━━━━━━━━━━━━━━━━━━━━"

/-- The numbered PR links built in the item loops
(`main.go` lines 480-485): `<url|PRn>` with `n` counting from 1. -/
def prLinks : Nat → List String → List String
  | _, [] => []
  | i, url :: rest =>
      ("<" ++ url ++ "|PR" ++ toString (i + 1) ++ ">") :: prLinks (i + 1) rest

/-- The PR column text: an en dash when there are no links, otherwise
the links joined by spaces (`main.go` lines 479-486). -/
def prText (prs : List String) : String :=
  if prs.length > 0 then String.intercalate " " (prLinks 0 prs) else "–"

/-- One item's section block in a batch thread reply
(`main.go` lines 488-502): escaped 65-character summary, key link,
status and PR columns, indented with non-breaking spaces. -/
def renderItemThreaded (jiraURL : String) (issue : IssueItem) : SBlock :=
  SBlock.section
    ("      • <" ++ jiraURL ++ "/browse/" ++
     issue.key ++ "|*" ++ issue.key ++ "*> — " ++
     summaryThreaded issue.summary ++
     "\n        *Status:* " ++
     issue.status ++ "  |  *PR:* " ++ prText issue.gitPullRequest)

/-- A status header block followed by the status's item blocks
(`main.go` lines 469-503). -/
def statusSectionThreaded (jiraURL status : String)
    (issues : List IssueItem) : List SBlock :=
  SBlock.section
      ("\n   📂 *" ++ status ++ "* (" ++
       toString issues.length ++ ")") ::
    issues.map (renderItemThreaded jiraURL)

/-- `PersonStatusGroup` (`main.go` lines 365-369), with the Go map
modelled as an association list in first-encounter key order. -/
structure PersonStatusGroup where
  person : String
  statusGroups : List (String × List IssueItem)
  totalIssues : Nat

/-- The complete block list of the single thread reply that
`sendDailyReportThreaded` builds for one person
(`main.go` lines 438-564): optional top separator for the first message,
person header, the status sections in `emittedStatuses` order (`perm` is
the Go map's enumeration order for the second loop), and a closing
separator.  No block-count cap of any kind is applied. -/
def personMessageBlocks (jiraURL : String) (isFirstMessage : Bool)
    (g : PersonStatusGroup) (perm : List String) : List SBlock :=
  (if isFirstMessage then [SBlock.section separator] else []) ++
  [SBlock.section ("*👤 " ++ g.person ++ "* (" ++ toString g.totalIssues ++
    " issue(s))\n" ++ separator)] ++
  statusOrder.foldl (fun acc status =>
    match lookupS g.statusGroups status with
    | some issues => acc ++ statusSectionThreaded jiraURL status issues
    | none => acc) [] ++
  perm.foldl (fun acc status =>
    if statusOrder.contains status then acc
    else acc ++ statusSectionThreaded jiraURL status
      ((lookupS g.statusGroups status).getD [])) [] ++
  [SBlock.section ("\n" ++ separator)]

/-- `const maxBlocks = 48` (`slash-server.go` line 304); the comment at
`main.go` line 362 likewise documents "we cap at 48 per message". -/
def maxBlocks : Nat := 48

/-- Items whose statuses are outside the preferred `statusOrder`, for
exercising the map-range-order loop. -/
def itemW1 : IssueItem :=
  { key := "MTV-1", summary := "s1", status := "Weird1", gitPullRequest := [] }

/-- A second item with another status outside `statusOrder`. -/
def itemW2 : IssueItem :=
  { key := "MTV-2", summary := "s2", status := "Weird2", gitPullRequest := [] }

/-- Fifty identical POST items for one person. -/
def fiftyPostIssues : List IssueItem :=
  List.replicate 50
    { key := "MTV-100", summary := "Fix migration", status := "POST",
      gitPullRequest := [] }

/-- A person group holding the fifty POST items. -/
def overflowGroup : PersonStatusGroup :=
  { person := "Alice Example", statusGroups := buildStatusGroups fiftyPostIssues,
    totalIssues := 50 }

theorem extractPRs_arr_foldl (l : List JsonVal) (acc : List String) :
    l.foldl prStep acc = acc ++ l.filterMap specLinkOfElem := by
  induction l generalizing acc with
  | nil => simp
  | cons hd tl ih =>
      cases hd with
      | str s =>
          by_cases hs : s = ""
          · simp [List.foldl_cons, prStep, hs, ih, specLinkOfElem,
              List.filterMap_cons]
          · simp [List.foldl_cons, prStep, hs, ih, specLinkOfElem,
              List.filterMap_cons]
      | null =>
          simp [List.foldl_cons, prStep, ih, specLinkOfElem, List.filterMap_cons]
      | arr es =>
          simp [List.foldl_cons, prStep, ih, specLinkOfElem, List.filterMap_cons]
      | num n =>
          simp [List.foldl_cons, prStep, ih, specLinkOfElem, List.filterMap_cons]
      | boolean b =>
          simp [List.foldl_cons, prStep, ih, specLinkOfElem, List.filterMap_cons]
      | obj =>
          simp [List.foldl_cons, prStep, ih, specLinkOfElem, List.filterMap_cons]

/-- C4: `extractPRs` maps the polymorphic link field as specified:
null yields the empty list; a string yields a one-element list unless
empty; a list yields its non-empty string elements in original order,
dropping non-string and empty entries; numeric, boolean and object
shapes yield the empty list. -/
theorem c4_extractPRs_shapes :
    extractPRs .null = [] ∧
    (∀ s : String, extractPRs (.str s) = if s = "" then [] else [s]) ∧
    (∀ l : List JsonVal, extractPRs (.arr l) = l.filterMap specLinkOfElem) ∧
    (∀ n : Int, extractPRs (.num n) = []) ∧
    (∀ b : Bool, extractPRs (.boolean b) = []) ∧
    extractPRs .obj = [] := by
  refine ⟨rfl, ?_, ?_, fun _ => rfl, fun _ => rfl, rfl⟩
  · intro s
    by_cases hs : s = "" <;> simp [extractPRs, hs]
  · intro l
    simpa using extractPRs_arr_foldl l []

/-- C3: the grouping key computed by the code equals the spec's
responsible-person rule for every record. -/
theorem c3_groupKey_spec (i : Issue) : groupKey i = specGroupKey i := by
  unfold groupKey specGroupKey
  rcases hq : i.qaContact with _ | reviewer <;>
    rcases ha : i.assignee with _ | a <;>
      by_cases h1 : i.status = "ON_QA" <;>
        by_cases h2 : i.status = "MODIFIED" <;>
          simp [h1, h2, hq, ha]

theorem specKeep_eq_guards (i : Issue) :
    specKeep i =
      (!shouldFilterOut i.components i.labels &&
       !(i.issueType == "Epic" && (extractPRs i.gitPullRequest).length == 0)) := by
  rw [Bool.eq_iff_iff]
  simp [specKeep, shouldFilterOut, List.any_eq_true, List.all_eq_true,
    List.length_eq_zero, not_or]
  tauto

theorem lookupL_upsert (m : List (String × List IssueItem)) (k : String)
    (v : IssueItem) (p : String) :
    lookupL (upsert m k v) p =
      if p = k then lookupL m p ++ [v] else lookupL m p := by
  induction m with
  | nil =>
      by_cases hp : p = k
      · subst hp; simp [upsert, lookupL]
      · have hp' : ¬ k = p := fun h => hp h.symm
        simp [upsert, lookupL, hp, hp']
  | cons hd tl ih =>
      obtain ⟨k', vs⟩ := hd
      by_cases hk : k' = k
      · subst hk
        by_cases hp : k' = p
        · subst hp; simp [upsert, lookupL]
        · have hp' : ¬ p = k' := fun h => hp h.symm
          simp [upsert, lookupL, hp, hp']
      · by_cases hp : k' = p
        · subst hp
          have hk' : ¬ k' = k := hk
          simp [upsert, lookupL, hk']
        · simp [upsert, lookupL, hk, hp, ih]

theorem lookupL_personStep (m : List (String × List IssueItem)) (i : Issue)
    (p : String) :
    lookupL (personStep m i) p =
      lookupL m p ++
        (if specKeep i && (groupKey i == p) then [toIssueItem i] else []) := by
  by_cases hf : shouldFilterOut i.components i.labels
  · have hk : specKeep i = false := by simp [specKeep_eq_guards, hf]
    simp [personStep, hf, hk]
  · have hf' : shouldFilterOut i.components i.labels = false :=
      Bool.eq_false_iff.mpr hf
    by_cases he : (i.issueType == "Epic" && (extractPRs i.gitPullRequest).length == 0) = true
    · have hk : specKeep i = false := by simp [specKeep_eq_guards, hf, he]
      simp [personStep, hf, he, hk]
    · have he' : (i.issueType == "Epic" && (extractPRs i.gitPullRequest).length == 0) = false :=
        Bool.eq_false_iff.mpr he
      have hk : specKeep i = true := by
        rw [specKeep_eq_guards, hf', he']; rfl
      by_cases hp : groupKey i = p
      · simp [personStep, hf', he', hk, hp, lookupL_upsert]
      · have hp' : ¬ p = groupKey i := fun h => hp h.symm
        simp [personStep, hf', he', hk, hp, hp', lookupL_upsert]

theorem lookupL_foldl_issues (issues : List Issue)
    (m : List (String × List IssueItem)) (p : String) :
    lookupL (issues.foldl personStep m) p =
      lookupL m p ++
        ((issues.filter (fun i => specKeep i && (groupKey i == p))).map
          toIssueItem) := by
  induction issues generalizing m with
  | nil => simp
  | cons hd tl ih =>
      by_cases hc : (specKeep hd && (groupKey hd == p)) = true <;>
        simp [List.foldl_cons, List.filter_cons, hc, ih, lookupL_personStep]

theorem lookupL_personIssues_aux (responses : List JiraSearchResponse)
    (m : List (String × List IssueItem)) (p : String) :
    lookupL (responses.foldl (fun m resp => resp.issues.foldl personStep m) m) p =
      lookupL m p ++
        (((responses.flatMap (fun r => r.issues)).filter
            (fun i => specKeep i && (groupKey i == p))).map toIssueItem) := by
  induction responses generalizing m with
  | nil => simp
  | cons hd tl ih =>
      simp [List.foldl_cons, ih, lookupL_foldl_issues, List.filter_append]

/-- C2: a record contributes an item to the daily-report grouping if and
only if the spec's three conditions hold; more precisely, the slice of
every person `p` in the `personIssues` map consists exactly of the
items of the records that pass `specKeep` and whose grouping key is
`p`, in original record order. -/
theorem c2_filter_grouping (responses : List JiraSearchResponse) (p : String) :
    lookupL (personIssues responses) p =
      (((responses.flatMap (fun r => r.issues)).filter
          (fun i => specKeep i && (groupKey i == p))).map toIssueItem) := by
  simpa using lookupL_personIssues_aux responses [] p

theorem containsChars_nil_pat (s : List Char) : containsChars s [] = true := by
  cases s <;> simp [containsChars, List.isPrefixOf]

theorem filterUserStep_empty_username (acc : List IssueItem) (issue : Issue) :
    filterUserStep (toLowerStr "") true acc issue = acc ++ [toIssueItem issue] := by
  have h : (toLowerStr "").data = [] := rfl
  simp [filterUserStep, containsStr, h, containsChars_nil_pat, toIssueItem]

theorem filterIssues_inner_empty_username (issues : List Issue)
    (acc : List IssueItem) :
    issues.foldl (filterUserStep (toLowerStr "") true) acc =
      acc ++ issues.map toIssueItem := by
  induction issues generalizing acc with
  | nil => simp
  | cons hd tl ih =>
      simp [List.foldl_cons, filterUserStep_empty_username, ih]

theorem filterIssues_outer_empty_username (responses : List JiraSearchResponse)
    (acc : List IssueItem) :
    responses.foldl
        (fun acc resp => resp.issues.foldl (filterUserStep (toLowerStr "") true) acc)
        acc =
      acc ++ (responses.flatMap (fun r => r.issues)).map toIssueItem := by
  induction responses generalizing acc with
  | nil => simp
  | cons hd tl ih =>
      rw [List.foldl_cons, filterIssues_inner_empty_username, ih]
      simp [List.flatMap_cons, List.append_assoc]

/-- C10: with the empty username and `skipFilters = true`,
`filterIssuesByUser` returns a simplified item for every record of every
response, in order — assignee-less and QA-contact-less records included —
because the empty pattern is contained in every string. -/
theorem c10_empty_username_keeps_all :
    (∀ responses : List JiraSearchResponse,
      filterIssuesByUser responses "" true =
        (responses.flatMap (fun r => r.issues)).map toIssueItem) ∧
    (∀ s : String, containsStr s "" = true) := by
  constructor
  · intro responses
    simpa [filterIssuesByUser] using
      filterIssues_outer_empty_username responses []
  · intro s
    exact containsChars_nil_pat s.data

set_option maxRecDepth 4000 in
/-- C6 counterexample: in the batch thread-reply context the truncation
budget is 65, not a value between 100 and 200.  A 70-character summary
needs no escaping and would be left whole by any budget in [100, 200],
yet `summaryThreaded` truncates it and appends the ellipsis. -/
theorem c6_counterexample_batch_budget :
    ¬ (∃ n : Nat, 100 ≤ n ∧ n ≤ 200 ∧ ∀ s : String,
        summaryThreaded s =
          (if (escapeSlackText s).length > n then
            (escapeSlackText s).take n ++ "..."
          else escapeSlackText s)) := by
  rintro ⟨n, h100, _h200, hall⟩
  have hall' :=
    hall "aaaaaaaaaaaaaaaaaaaaaaaaaaaaaaaaaaaaaaaaaaaaaaaaaaaaaaaaaaaaaaaaaaaaaa"
  rw [show escapeSlackText
        "aaaaaaaaaaaaaaaaaaaaaaaaaaaaaaaaaaaaaaaaaaaaaaaaaaaaaaaaaaaaaaaaaaaaaa" =
      "aaaaaaaaaaaaaaaaaaaaaaaaaaaaaaaaaaaaaaaaaaaaaaaaaaaaaaaaaaaaaaaaaaaaaa"
      from by decide] at hall'
  rw [show
      ("aaaaaaaaaaaaaaaaaaaaaaaaaaaaaaaaaaaaaaaaaaaaaaaaaaaaaaaaaaaaaaaaaaaaaa" : String).length =
      70 from by decide] at hall'
  rw [if_neg (by omega : ¬ (70 > n))] at hall'
  exact absurd hall' (by decide)

/-- C6 amended: every rendered item block escapes the summary and then
truncates it to a fixed budget — 65 characters in batch thread replies,
100 in the interactive ephemeral message, 150 in interactive status-group
thread replies — appending the `...` marker exactly when the escaped
summary exceeds that budget. -/
theorem c6_escape_then_truncate (s : String) :
    ((escapeSlackText s).length > 65 →
      summaryThreaded s = (escapeSlackText s).take 65 ++ "...") ∧
    ((escapeSlackText s).length ≤ 65 → summaryThreaded s = escapeSlackText s) ∧
    ((escapeSlackText s).length > 100 →
      summaryEphemeral s = (escapeSlackText s).take 100 ++ "...") ∧
    ((escapeSlackText s).length ≤ 100 → summaryEphemeral s = escapeSlackText s) ∧
    ((escapeSlackText s).length > 150 →
      summaryStatusGroup s = (escapeSlackText s).take 150 ++ "...") ∧
    ((escapeSlackText s).length ≤ 150 → summaryStatusGroup s = escapeSlackText s) := by
  refine ⟨fun h => ?_, fun h => ?_, fun h => ?_, fun h => ?_, fun h => ?_, fun h => ?_⟩ <;>
    simp [summaryThreaded, summaryEphemeral, summaryStatusGroup, h]

theorem c6_escape_then_truncate_witness :
    summaryThreaded "<a&b>" = escapeSlackText "<a&b>" :=
  (c6_escape_then_truncate "<a&b>").2.1 (by decide)

theorem containsChars_iff (pat : List Char) :
    ∀ s : List Char,
      containsChars s pat = true ↔ ∃ pre suf, s = pre ++ pat ++ suf := by
  intro s
  induction s with
  | nil =>
      simp only [containsChars, List.isEmpty_iff]
      constructor
      · rintro rfl; exact ⟨[], [], rfl⟩
      · rintro ⟨pre, suf, h⟩
        rcases List.append_eq_nil.mp h.symm with ⟨h1, _⟩
        exact (List.append_eq_nil.mp h1).2
  | cons c rest ih =>
      simp only [containsChars, Bool.or_eq_true, List.isPrefixOf_iff_prefix, ih]
      constructor
      · rintro (⟨t, ht⟩ | ⟨pre, suf, rfl⟩)
        · exact ⟨[], t, by simp [ht]⟩
        · exact ⟨c :: pre, suf, rfl⟩
      · rintro ⟨pre, suf, h⟩
        cases pre with
        | nil =>
            exact Or.inl ⟨suf, by simpa using h.symm⟩
        | cons p ps =>
            simp only [List.cons_append, List.cons.injEq] at h
            exact Or.inr ⟨ps, suf, h.2⟩

theorem dropWhile_append_cons (p : Char → Bool) (xs : List Char) (c₀ : Char)
    (ys : List Char) (hc : p c₀ = false) :
    ∃ xs', (xs ++ c₀ :: ys).dropWhile p = xs' ++ c₀ :: ys := by
  induction xs with
  | nil => exact ⟨[], by simp [List.dropWhile_cons, hc]⟩
  | cons x xt ih =>
      by_cases hx : p x = true
      · simpa [List.dropWhile_cons, hx] using ih
      · exact ⟨x :: xt, by simp [List.dropWhile_cons, hx]⟩

theorem flag_occurs_trimSpaceChars (l : List Char)
    (h : ∃ pre suf, l = pre ++ flagChars ++ suf) :
    ∃ pre suf, trimSpaceChars l = pre ++ flagChars ++ suf := by
  obtain ⟨pre, suf, rfl⟩ := h
  obtain ⟨pre₁, h1⟩ :=
    dropWhile_append_cons isGoSpace pre '-' ("-all".data ++ suf) (by decide)
  have e : pre ++ flagChars ++ suf = pre ++ '-' :: ("-all".data ++ suf) := by
    simp [flagChars]
  rw [trimSpaceChars, e, h1]
  have e2 : (pre₁ ++ '-' :: ("-all".data ++ suf)).reverse
      = suf.reverse ++ 'l' :: ("la--".data ++ pre₁.reverse) := by
    simp [List.reverse_append]
  rw [e2]
  obtain ⟨xs₂, h2⟩ :=
    dropWhile_append_cons isGoSpace suf.reverse 'l'
      ("la--".data ++ pre₁.reverse) (by decide)
  rw [h2]
  refine ⟨pre₁, xs₂.reverse, ?_⟩
  simp [flagChars, List.reverse_append]

theorem occurs_of_trim_occurs (l : List Char)
    (h : ∃ pre suf, trimSpaceChars l = pre ++ flagChars ++ suf) :
    ∃ pre suf, l = pre ++ flagChars ++ suf := by
  obtain ⟨pre, suf, htrim⟩ := h
  have hsfx : l.dropWhile isGoSpace <:+ l := List.dropWhile_suffix _
  have hpre : trimSpaceChars l <+: l.dropWhile isGoSpace := by
    refine List.reverse_suffix.mp ?_
    simpa [trimSpaceChars] using
      List.dropWhile_suffix (l := (l.dropWhile isGoSpace).reverse) isGoSpace
  have hinfix : trimSpaceChars l <:+: l := hpre.isInfix.trans hsfx.isInfix
  obtain ⟨a, b, hab⟩ := hinfix
  rw [htrim] at hab
  exact ⟨a ++ pre, suf ++ b, by rw [← hab]; simp [List.append_assoc]⟩

set_option maxRecDepth 4000 in
/-- C9 counterexample: placing the `--all` flag between the two words of
the name does not parse to username "John Doe" — only the surrounding
whitespace is trimmed, so the doubled interior space remains. -/
theorem c9_counterexample_mid_flag :
    parseSlashText "John --all Doe" = (true, "John  Doe") ∧
    ("John  Doe" : String) ≠ "John Doe" := by
  constructor
  · decide
  · decide

/-- C9 amended: `includeAll` is true exactly when the literal token
`--all` occurs anywhere in the text, and the username is the text with
every occurrence of the flag removed and surrounding whitespace trimmed;
the scenario text `--all John Doe` parses to `(true, "John Doe")`, and
the same result holds when the flag is the leading or trailing token —
but not for an interior flag, which leaves a doubled interior space. -/
theorem c9_flag_parsing :
    (∀ t : String, (parseSlashText t).1 = true ↔
        ∃ pre suf, t.data = pre ++ flagChars ++ suf) ∧
    parseSlashText "--all John Doe" = (true, "John Doe") ∧
    parseSlashText "John Doe --all" = (true, "John Doe") := by
  refine ⟨?_, by decide, by decide⟩
  intro t
  have hshow : (parseSlashText t).1
      = containsChars (trimSpaceChars t.data) flagChars := rfl
  rw [hshow, containsChars_iff]
  constructor
  · exact fun h => occurs_of_trim_occurs t.data h
  · exact fun h => flag_occurs_trimSpaceChars t.data h

theorem c9_flag_parsing_witness :
    (parseSlashText "--all John Doe").1 = true :=
  (c9_flag_parsing.1 "--all John Doe").mpr ⟨[], " John Doe".data, by decide⟩

theorem fetchLoop_error_empty (server : Nat → Option HttpResp) :
    ∀ fuel startAt acc rs e,
      fetchLoop server fuel startAt acc = some (rs, some e) → rs = [] := by
  intro fuel
  induction fuel with
  | zero => intro startAt acc rs e h; simp [fetchLoop] at h
  | succ f ih =>
      intro startAt acc rs e h
      simp only [fetchLoop] at h
      split at h
      · simp_all
      · split at h
        · simp_all
        · split at h
          · simp_all
          · split at h
            · simp_all
            · exact ih _ _ _ _ h

/-- C7: whenever the paginated fetch ends in an error — a transport
failure, a non-200 status, or an undecodable body on any page — the
returned result slice is empty; responses accumulated from earlier
successful pages are never returned alongside the failure. -/
theorem c7_no_partial_results (server : Nat → Option HttpResp) (fuel : Nat)
    (rs : List JiraSearchResponse) (e : FetchErr)
    (h : fetchJiraIssues server fuel = some (rs, some e)) : rs = [] :=
  fetchLoop_error_empty server fuel 0 [] rs e h

theorem c7_no_partial_results_witness :
    ([] : List JiraSearchResponse) = [] :=
  c7_no_partial_results serverFailsSecondPage 2 [] FetchErr.transport rfl

theorem fetchLoop_reaches_end (server : Nat → Option HttpResp) (T : Nat)
    (hT : ∀ n resp r, server n = some resp → resp.body = some r →
      r.respTotal = T) :
    ∀ fuel startAt acc, T ≤ startAt + maxResultsPerPage * fuel →
      (fetchLoop server (fuel + 1) startAt acc).isSome := by
  intro fuel
  induction fuel with
  | zero =>
      intro startAt acc hb
      rcases hs : server startAt with _ | resp
      · simp [fetchLoop, hs]
      · by_cases hc : resp.statusCode ≠ 200
        · simp [fetchLoop, hs, hc]
        · rcases hbody : resp.body with _ | r
          · simp [fetchLoop, hs, hc, hbody]
          · have ht := hT startAt resp r hs hbody
            have hexit : startAt + r.issues.length ≥ r.respTotal := by
              rw [ht]; simp [maxResultsPerPage] at hb; omega
            simp [fetchLoop, hs, hc, hbody, hexit]
  | succ f ih =>
      intro startAt acc hb
      rcases hs : server startAt with _ | resp
      · simp [fetchLoop, hs]
      · by_cases hc : resp.statusCode ≠ 200
        · simp [fetchLoop, hs, hc]
        · rcases hbody : resp.body with _ | r
          · simp [fetchLoop, hs, hc, hbody]
          · by_cases hexit : startAt + r.issues.length ≥ r.respTotal
            · simp [fetchLoop, hs, hc, hbody, hexit]
            · have hb' : T ≤ startAt + maxResultsPerPage + maxResultsPerPage * f := by
                simp [maxResultsPerPage] at hb ⊢; omega
              simpa [fetchLoop, hs, hc, hbody, hexit] using
                ih (startAt + maxResultsPerPage) (acc ++ [r]) hb'

/-- C8: under the precondition that every decoded page reports the same
total `T`, the pagination loop terminates: `fetchJiraIssues` returns a
result within `T / 100 + 2` rounds.  Each non-final round advances
`startAt` by exactly `maxResultsPerPage`, and the loop returns as soon
as `startAt` plus the current page's issue count reaches the reported
total, as the recursion in `fetchLoop` shows. -/
theorem c8_pagination_terminates (server : Nat → Option HttpResp) (T : Nat)
    (hT : ∀ n resp r, server n = some resp → resp.body = some r →
      r.respTotal = T) :
    (fetchJiraIssues server (T / maxResultsPerPage + 2)).isSome := by
  have hb : T ≤ 0 + maxResultsPerPage * (T / maxResultsPerPage + 1) := by
    simp [maxResultsPerPage]; omega
  exact fetchLoop_reaches_end server T hT (T / maxResultsPerPage + 1) 0 [] hb

theorem c8_pagination_terminates_witness :
    (fetchJiraIssues serverEmptyTotal (0 / maxResultsPerPage + 2)).isSome := by
  refine c8_pagination_terminates serverEmptyTotal 0 ?_
  intro n resp r h1 h2
  simp only [serverEmptyTotal] at h1
  injection h1 with h1
  subst h1
  injection h2 with h2
  subst h2
  rfl

theorem foldl_emit_present (sg : List (String × List IssueItem)) :
    ∀ (l : List String) (acc : List String),
      l.foldl (fun acc status =>
          match lookupS sg status with
          | some _ => acc ++ [status]
          | none => acc) acc =
        acc ++ l.filter (fun s => (lookupS sg s).isSome) := by
  intro l
  induction l with
  | nil => intro acc; simp
  | cons hd tl ih =>
      intro acc
      rcases hs : lookupS sg hd with _ | vs <;>
        simp [List.foldl_cons, List.filter_cons, hs, ih]

theorem foldl_emit_rest :
    ∀ (l : List String) (acc : List String),
      l.foldl (fun acc status =>
          if statusOrder.contains status then acc else acc ++ [status]) acc =
        acc ++ l.filter (fun s => !statusOrder.contains s) := by
  intro l
  induction l with
  | nil => intro acc; simp
  | cons hd tl ih =>
      intro acc
      cases hc : statusOrder.contains hd with
      | false =>
          rw [List.foldl_cons, if_neg (by simpa using hc), ih, List.filter_cons,
            if_pos (by simpa using hc)]
          simp
      | true =>
          rw [List.foldl_cons, if_pos (by simpa using hc), ih, List.filter_cons,
            if_neg (by simpa using hc)]

set_option maxRecDepth 4000 in
/-- C5 counterexample: the order of the statuses outside the preferred
sequence depends on the Go map's enumeration order, which is
unspecified — it is not the first-encounter order.  With two
non-preferred statuses first encountered as Weird1 then Weird2, the
enumeration order [Weird2, Weird1] is a permutation of the map's keys,
and the emitted order then differs from the first-encounter order that
the claim predicts. -/
theorem c5_counterexample_map_order :
    (["Weird2", "Weird1"] : List String).Perm
        ((buildStatusGroups [itemW1, itemW2]).map (fun kv => kv.1)) ∧
    emittedStatuses (buildStatusGroups [itemW1, itemW2]) ["Weird2", "Weird1"] ≠
      statusOrder.filter
          (fun s => (lookupS (buildStatusGroups [itemW1, itemW2]) s).isSome) ++
        ((buildStatusGroups [itemW1, itemW2]).map (fun kv => kv.1)).filter
          (fun s => !statusOrder.contains s) := by
  constructor
  · decide
  · decide

/-- C5 amended: person groups appear sorted lexicographically ascending
(Go sorts the collected keys, and any two enumeration orders of the same
key set sort to the same list), and within each person the statuses
present appear in the fixed preferred sequence first, followed by the
remaining statuses in the map's (unspecified) enumeration order rather
than first-encounter order. -/
theorem c5_deterministic_ordering (sg : List (String × List IssueItem))
    (perm : List String) (p₁ p₂ : List String) (hperm : p₁.Perm p₂) :
    emittedStatuses sg perm =
      statusOrder.filter (fun s => (lookupS sg s).isSome) ++
        perm.filter (fun s => !statusOrder.contains s) ∧
    (sortStrings p₁).Sorted (· ≤ ·) ∧
    sortStrings p₁ = sortStrings p₂ := by
  refine ⟨?_, ?_, ?_⟩
  · rw [emittedStatuses, foldl_emit_present, foldl_emit_rest]
    simp
  · exact List.sorted_insertionSort _ p₁
  · exact List.eq_of_perm_of_sorted
      ((List.perm_insertionSort _ p₁).trans
        (hperm.trans (List.perm_insertionSort _ p₂).symm))
      (List.sorted_insertionSort _ p₁)
      (List.sorted_insertionSort _ p₂)

theorem c5_deterministic_ordering_witness :
    sortStrings ["b", "a"] = sortStrings ["a", "b"] :=
  (c5_deterministic_ordering [] [] ["b", "a"] ["a", "b"]
    (List.Perm.swap "a" "b" [])).2.2

set_option maxRecDepth 8000 in
/-- C1 evaluated at a failing input: for a person with 50 POST issues,
the batch sender builds a single thread reply of 54 blocks —
`sendDailyReportThreaded` applies no block-count cap at all — exceeding
the documented maximum of 48 blocks per message. -/
theorem c1_batch_reply_exceeds_cap :
    (personMessageBlocks "https://issues.redhat.com" true overflowGroup
        ["POST"]).length = 54 ∧
    maxBlocks < 54 := by
  constructor
  · rfl
  · decide
